import Mathlib

/-!
Verification of the navigation-building layer in `src/utils/navigation.ts`.

JavaScript strings are embedded as `List Char`; `String.prototype.split`,
`join`, `includes`, `startsWith`, `toLowerCase`/`toUpperCase` and friends are
embedded as executable functions on `List Char` below, each mirroring the
observable behaviour of the JS method on the inputs the program feeds it.
-/

/-- Model of `s.split(sep)` for a single-character separator: splits at every
occurrence of `sep`, keeping empty chunks, and yields `[[]]` on the empty
string, exactly as in JavaScript. -/
def jsSplit (sep : Char) : List Char → List (List Char)
| [] => [[]]
| c :: rest =>
  match jsSplit sep rest with
  | [] => [[]]
  | a :: as => if c = sep then [] :: a :: as else (c :: a) :: as

/-- Model of `arr.join(sep)`. -/
def jsJoin (sep : List Char) : List (List Char) → List Char
| [] => []
| [a] => a
| a :: b :: rest => a ++ sep ++ jsJoin sep (b :: rest)

/-- Model of `s.toLowerCase()` (the program only feeds it ASCII data). -/
def lowerStr (s : List Char) : List Char := s.map Char.toLower

/-- Model of `w.charAt(0).toUpperCase() + w.slice(1)`. -/
def upperFirst : List Char → List Char
| [] => []
| c :: r => c.toUpper :: r

/-- Model of `s.includes(pat)`: substring test. -/
def jsIncludes (pat : List Char) : List Char → Bool
| [] => pat.isPrefixOf []
| c :: rest => pat.isPrefixOf (c :: rest) || jsIncludes pat rest

/-- Model of `a.localeCompare(b)`: a total three-way comparison; embedded as
lexicographic comparison by code point (only its sign and comparator laws
matter to the program). -/
def strCmp : List Char → List Char → Int
| [], [] => 0
| [], _ :: _ => -1
| _ :: _, [] => 1
| a :: as, b :: bs =>
  if a.toNat < b.toNat then -1 else if b.toNat < a.toNat then 1 else strCmp as bs

/-- The `CATEGORY_PREFIXES` constant of `navigation.ts`. -/
def CATEGORY_PREFIXES : List (List Char) :=
  ["sql", "nosql", "fund", "adv", "util", "db", "api", "sec", "perf", "dep", "proj"].map
    String.toList

/-- `extractCategoryFromPath` from `navigation.ts`: split on `-`; when there is
more than one part and the lowered first part is a category prefix, return it
with the remaining parts rejoined; otherwise no category and the input. -/
def extractCategoryFromPath (pathName : List Char) : Option (List Char) × List Char :=
  let parts := jsSplit '-' pathName
  if parts.length > 1 then
    let firstPart := lowerStr parts.headI
    if firstPart ∈ CATEGORY_PREFIXES then
      (some firstPart, jsJoin ['-'] parts.tail)
    else
      (none, pathName)
  else
    (none, pathName)

/-- The `minorWords` set built inside `toSmartTitleCase` (including its
duplicated "and" entry, harmless to membership). -/
def minorWords : List (List Char) :=
  ["a", "an", "and", "the", "and", "but", "or", "nor", "as", "at", "by", "with",
   "for", "in", "of", "on", "per", "to", "via", "vs", "v", "vs.", "v."].map String.toList

/-- The word-mapping callback of `toSmartTitleCase` (`n` is the array length,
`i` the index): capitalize first and last words, process hyphenated words
part-by-part, keep minor words, capitalize the rest. -/
def capWord (n i : Nat) (w : List Char) : List Char :=
  if i = 0 then upperFirst w
  else if i = n - 1 then upperFirst w
  else if '-' ∈ w then jsJoin ['-'] ((jsSplit '-' w).map upperFirst)
  else if w ∈ minorWords then w
  else upperFirst w

/-- `toSmartTitleCase` from `navigation.ts`. -/
def toSmartTitleCase (str : List Char) : List Char :=
  let cn := (extractCategoryFromPath str).2
  if ("use".toList.isPrefixOf cn) && !("user".toList.isPrefixOf cn) then cn
  else if cn = "jQuery".toList then "jQuery".toList
  else
    let arr := jsSplit '-' cn
    jsJoin [' '] (arr.mapIdx (fun i w => capWord arr.length i w))

/-- The word-mapping callback of `toSmartTitleCase` with the
hyphenated-word branch removed (the comparison point for the claim that that
branch is dead code). -/
def capWordSlim (n i : Nat) (w : List Char) : List Char :=
  if i = 0 then upperFirst w
  else if i = n - 1 then upperFirst w
  else if w ∈ minorWords then w
  else upperFirst w

/-- `toSmartTitleCase` with the hyphenated-word branch removed. -/
def toSmartTitleCaseSlim (str : List Char) : List Char :=
  let cn := (extractCategoryFromPath str).2
  if ("use".toList.isPrefixOf cn) && !("user".toList.isPrefixOf cn) then cn
  else if cn = "jQuery".toList then "jQuery".toList
  else
    let arr := jsSplit '-' cn
    jsJoin [' '] (arr.mapIdx (fun i w => capWordSlim arr.length i w))

theorem jsSplit_ne_nil (sep : Char) (l : List Char) : jsSplit sep l ≠ [] := by
  cases l with
  | nil => simp [jsSplit]
  | cons c rest =>
    simp only [jsSplit]
    cases jsSplit sep rest with
    | nil => simp
    | cons a as =>
      by_cases h : c = sep <;> simp [h]

theorem not_mem_of_mem_jsSplit (sep : Char) (l : List Char) :
    ∀ w ∈ jsSplit sep l, sep ∉ w := by
  induction l with
  | nil => intro w hw; simp [jsSplit] at hw; simp [hw]
  | cons c rest ih =>
    intro w hw
    cases hsp : jsSplit sep rest with
    | nil => exact absurd hsp (jsSplit_ne_nil sep rest)
    | cons a as =>
      simp only [jsSplit, hsp] at hw
      by_cases h : c = sep
      · simp only [if_pos h, List.mem_cons] at hw
        rcases hw with hw | hw
        · simp [hw]
        · exact ih w (by rw [hsp]; exact List.mem_cons.mpr hw)
      · simp only [if_neg h, List.mem_cons] at hw
        rcases hw with hw | hw
        · subst hw
          have ha : a ∈ jsSplit sep rest := by rw [hsp]; exact List.mem_cons_self a as
          have hna := ih a ha
          simp only [List.mem_cons, not_or]
          exact ⟨fun hcs => h hcs.symm, hna⟩
        · exact ih w (by rw [hsp]; exact List.mem_cons_of_mem a hw)

theorem jsSplit_of_not_mem (sep : Char) (l : List Char) (h : sep ∉ l) :
    jsSplit sep l = [l] := by
  induction l with
  | nil => rfl
  | cons c rest ih =>
    simp only [List.mem_cons, not_or] at h
    have hcs : ¬c = sep := fun hc => h.1 hc.symm
    simp only [jsSplit, ih h.2, if_neg hcs]

/-- Result shape of `readMDXMetadata`: optional front-matter title and order. -/
structure MDXMetadata where
  title : Option (List Char)
  order : Option Int
deriving DecidableEq

/-- Model of the regex class `\s` on the character set the program meets. -/
def jsIsSpace (c : Char) : Bool :=
  c = ' ' || c = '\t' || c = '\n' || c = '\r' || c = '\x0b' || c = '\x0c'

/-- Suffix strictly after the last newline of the list (the whole list when it
has none); used to model the greedy `\s*` backtracking to its last `\n`. -/
def afterLastNewline : List Char → List Char
| [] => []
| c :: rest =>
  if '\n' ∈ rest then afterLastNewline rest
  else if c = '\n' then rest else c :: rest

/-- First chunk of the list that is followed by an occurrence of `pat`
(`none` when `pat` never occurs): models the lazy `([\s\S]*?)` capture. -/
def firstChunkBefore (pat : List Char) : List Char → Option (List Char)
| [] => if pat.isPrefixOf [] then some [] else none
| c :: rest =>
  if pat.isPrefixOf (c :: rest) then some []
  else (firstChunkBefore pat rest).map (fun b => c :: b)

/-- Model of the front-matter regex match in `readMDXMetadata` (anchored
literal `---`, greedy `\s*` backtracked to its last newline, lazy body, then
newline and `---`), returning the captured front-matter body. -/
def matchFrontmatter (content : List Char) : Option (List Char) :=
  if "---".toList.isPrefixOf content then
    let rest := content.drop 3
    let w := rest.takeWhile jsIsSpace
    if '\n' ∈ w then
      firstChunkBefore "\n---".toList (afterLastNewline w ++ rest.drop w.length)
    else none
  else none

/-- Is the character one of the two quote characters of `["']`? -/
def quoteChar (c : Char) : Bool := c = '"' || c = Char.ofNat 39

/-- Prefix of the list before its last quote character (`none` without one);
models the greedy `(.+)["']` backtracking to the last quote of the line. -/
def beforeLastQuote : List Char → Option (List Char)
| [] => none
| c :: rest =>
  match beforeLastQuote rest with
  | some b => some (c :: b)
  | none => if quoteChar c then some [] else none

/-- The `(.+)["']` capture on the rest of a line: nonempty prefix before the
last quote. -/
def titleCapture (line : List Char) : Option (List Char) :=
  match beforeLastQuote line with
  | some b => if b = [] then none else some b
  | none => none

/-- Attempt of `/title:\s*["'](.+)["']/` anchored at this position. -/
def titleAt (l : List Char) : Option (List Char) :=
  if "title:".toList.isPrefixOf l then
    match (l.drop 6).dropWhile jsIsSpace with
    | [] => none
    | q :: rest =>
      if quoteChar q then
        titleCapture (rest.takeWhile (fun c => c != '\n' && c != '\r'))
      else none
  else none

/-- Model of `frontmatter.match(/title:\s*["'](.+)["']/)`: first position at
which the pattern matches, scanning left to right. -/
def titleSearch : List Char → Option (List Char)
| [] => none
| c :: rest =>
  match titleAt (c :: rest) with
  | some t => some t
  | none => titleSearch rest

/-- Value of a digit run, as `parseInt` would produce it. -/
def digitsToNat (ds : List Char) : Nat := ds.foldl (fun acc c => acc * 10 + (c.toNat - 48)) 0

/-- Attempt of `/order:\s*(\d+)/` anchored at this position. -/
def orderAt (l : List Char) : Option Int :=
  if "order:".toList.isPrefixOf l then
    let ds := ((l.drop 6).dropWhile jsIsSpace).takeWhile Char.isDigit
    if ds = [] then none else some (Int.ofNat (digitsToNat ds))
  else none

/-- Model of `frontmatter.match(/order:\s*(\d+)/)`: first position at which
the pattern matches. -/
def orderSearch : List Char → Option Int
| [] => none
| c :: rest =>
  match orderAt (c :: rest) with
  | some n => some n
  | none => orderSearch rest

/-- `readMDXMetadata` from `navigation.ts`. The file system is abstracted:
`clientSide` models `typeof window !== "undefined"`, and `content` is the text
`fs.readFileSync` would return, `none` when the read throws (missing or
unreadable file), which the source converts to `{}` in its catch handler. -/
def readMDXMetadata (clientSide : Bool) (content : Option (List Char)) : MDXMetadata :=
  if clientSide then ⟨none, none⟩
  else
    match content with
    | none => ⟨none, none⟩
    | some text =>
      match matchFrontmatter text with
      | none => ⟨none, none⟩
      | some fm => ⟨titleSearch fm, orderSearch fm⟩

/-- The `NavigationItem` interface of `navigation.ts` (the `icon` field is
never read or written by the verified core and is omitted). -/
inductive NavigationItem : Type where
| mk (title : List Char) (href : List Char) (children : Option (List NavigationItem))
     (order : Option Int) (isExpanded : Option Bool) : NavigationItem

def NavigationItem.title : NavigationItem → List Char
| .mk t _ _ _ _ => t

def NavigationItem.href : NavigationItem → List Char
| .mk _ h _ _ _ => h

def NavigationItem.children : NavigationItem → Option (List NavigationItem)
| .mk _ _ ch _ _ => ch

def NavigationItem.order : NavigationItem → Option Int
| .mk _ _ _ o _ => o

def NavigationItem.isExpanded : NavigationItem → Option Bool
| .mk _ _ _ _ e => e

/-- The `NavigationSection` interface of `navigation.ts`. -/
structure NavigationSection where
  title : List Char
  items : List NavigationItem

/-- `getPriority` from `navigation.ts`. -/
def getPriority (title : List Char) : Int :=
  let nt := lowerStr title
  if jsIncludes "abbreviations".toList nt || jsIncludes "vocabulary".toList nt ||
     jsIncludes "acronyms".toList nt then 1
  else if jsIncludes "setting up".toList nt || jsIncludes "set up".toList nt ||
     jsIncludes "selection".toList nt || jsIncludes "starter".toList nt ||
     jsIncludes "fundamentals".toList nt || jsIncludes "setup".toList nt then 2
  else if jsIncludes "getting started".toList nt ||
     jsIncludes "project structure".toList nt then 3
  else if jsIncludes "introduction".toList nt || jsIncludes "foundation".toList nt ||
     jsIncludes "intro".toList nt then 4
  else if jsIncludes "security".toList nt || jsIncludes "performance".toList nt then 999
  else if jsIncludes "bonus".toList nt || jsIncludes "libraries".toList nt ||
     jsIncludes "optional".toList nt || jsIncludes "frameworks".toList nt then 9999
  else 99

/-- The branch of the sort comparator taken when both priorities are `999`:
explicit order first, then presence of order, then `localeCompare` on titles. -/
def tieCmp (a b : NavigationItem) : Int :=
  match a.order, b.order with
  | some x, some y => x - y
  | some _, none => -1
  | none, some _ => 1
  | none, none => strCmp a.title b.title

/-- The comparator passed to `items.sort` in `sortNavigationItems`. -/
def cmpItems (a b : NavigationItem) : Int :=
  let pA := getPriority a.title
  let pB := getPriority b.title
  if pA ≠ 999 ∨ pB ≠ 999 then pA - pB
  else tieCmp a b

/-- The "may stay before" relation induced by the comparator: JS `sort` with a
consistent comparator is (per ES2019) a stable sort with respect to it. -/
def jsLe (a b : NavigationItem) : Prop := cmpItems a b ≤ 0

instance : DecidableRel jsLe := fun a b => by unfold jsLe; infer_instance

/-- `sortNavigationItems` from `navigation.ts`: the stable sort of the sibling
list by the comparator (modelled with the stable `insertionSort`). -/
def sortNavigationItems (items : List NavigationItem) : List NavigationItem :=
  List.insertionSort jsLe items

theorem strCmp_swap (a b : List Char) : strCmp b a = -strCmp a b := by
  induction a generalizing b with
  | nil => cases b <;> simp [strCmp]
  | cons x xs ih =>
    cases b with
    | nil => simp [strCmp]
    | cons y ys =>
      simp only [strCmp]
      rcases Nat.lt_trichotomy x.toNat y.toNat with h | h | h
      · simp [h, Nat.lt_asymm h]
      · simp [h, Nat.lt_irrefl, ih ys]
      · simp [h, Nat.lt_asymm h]

theorem strCmp_le_total (a b : List Char) : strCmp a b ≤ 0 ∨ strCmp b a ≤ 0 := by
  rw [strCmp_swap]
  omega

theorem strCmp_le_trans {a b c : List Char} (hab : strCmp a b ≤ 0) (hbc : strCmp b c ≤ 0) :
    strCmp a c ≤ 0 := by
  induction a generalizing b c with
  | nil => cases c <;> simp [strCmp]
  | cons x xs ih =>
    cases b with
    | nil => simp [strCmp] at hab
    | cons y ys =>
      cases c with
      | nil => simp [strCmp] at hbc
      | cons z zs =>
        simp only [strCmp] at hab hbc ⊢
        rcases Nat.lt_trichotomy x.toNat y.toNat with hxy | hxy | hxy <;>
          rcases Nat.lt_trichotomy y.toNat z.toNat with hyz | hyz | hyz
        · simp [show x.toNat < z.toNat from by omega]
        · simp [show x.toNat < z.toNat from by omega]
        · simp [hyz, Nat.lt_asymm hyz] at hbc
        · simp [show x.toNat < z.toNat from by omega]
        · simp only [hxy, hyz, Nat.lt_irrefl, if_false, ite_false] at hab hbc ⊢
          exact ih hab hbc
        · simp [hyz, Nat.lt_asymm hyz] at hbc
        · simp [hxy, Nat.lt_asymm hxy] at hab
        · simp [hxy, Nat.lt_asymm hxy] at hab
        · simp [hxy, Nat.lt_asymm hxy] at hab

theorem tieCmp_le_total (a b : NavigationItem) : tieCmp a b ≤ 0 ∨ tieCmp b a ≤ 0 := by
  obtain ⟨ta, ha, cha, oa, ea⟩ := a
  obtain ⟨tb, hb, chb, ob, eb⟩ := b
  unfold tieCmp
  dsimp only [NavigationItem.order, NavigationItem.title]
  rcases oa with _ | x <;> rcases ob with _ | y <;> dsimp only
  · exact strCmp_le_total ta tb
  · omega
  · omega
  · omega

theorem tieCmp_le_trans {a b c : NavigationItem} (hab : tieCmp a b ≤ 0)
    (hbc : tieCmp b c ≤ 0) : tieCmp a c ≤ 0 := by
  obtain ⟨ta, ha, cha, oa, ea⟩ := a
  obtain ⟨tb, hb, chb, ob, eb⟩ := b
  obtain ⟨tc, hc, chc, oc, ec⟩ := c
  unfold tieCmp at hab hbc ⊢
  dsimp only [NavigationItem.order, NavigationItem.title] at hab hbc ⊢
  rcases oa with _ | x <;> rcases ob with _ | y <;> rcases oc with _ | z <;>
    dsimp only at hab hbc ⊢
  · exact strCmp_le_trans hab hbc
  all_goals omega

theorem cmpItems_le_total (a b : NavigationItem) : cmpItems a b ≤ 0 ∨ cmpItems b a ≤ 0 := by
  unfold cmpItems
  by_cases hA : getPriority a.title = 999 <;> by_cases hB : getPriority b.title = 999 <;>
    simp only [hA, hB, ne_eq, not_true_eq_false, not_false_eq_true, false_or, or_true,
      true_or, or_false, if_true, if_false, ite_true, ite_false]
  · exact tieCmp_le_total a b
  all_goals omega

theorem cmpItems_le_trans {a b c : NavigationItem} (hab : cmpItems a b ≤ 0)
    (hbc : cmpItems b c ≤ 0) : cmpItems a c ≤ 0 := by
  unfold cmpItems at hab hbc ⊢
  by_cases hA : getPriority a.title = 999 <;> by_cases hB : getPriority b.title = 999 <;>
    by_cases hC : getPriority c.title = 999 <;>
    simp only [hA, hB, hC, ne_eq, not_true_eq_false, not_false_eq_true, false_or, or_true,
      true_or, or_false, if_true, if_false, ite_true, ite_false] at hab hbc ⊢
  · exact tieCmp_le_trans hab hbc
  all_goals omega

instance : IsTotal NavigationItem jsLe := ⟨cmpItems_le_total⟩

instance : IsTrans NavigationItem jsLe := ⟨fun _ _ _ => cmpItems_le_trans⟩

/-- The `switch (category)` mapping inside `categorizeItem`, from category
prefix to section key (`none` for an unmatched case, which lets the segment
loop continue). -/
def switchCode (c : List Char) : Option (List Char) :=
  if c = "sql".toList then some "sql".toList
  else if c = "nosql".toList then some "nosql".toList
  else if c = "db".toList then some "databases".toList
  else if c = "api".toList then some "databases".toList
  else if c = "fund".toList then some "fundamentals".toList
  else if c = "proj".toList then some "projects".toList
  else if c = "adv".toList then some "advanced".toList
  else if c = "sec".toList then some "advanced".toList
  else if c = "perf".toList then some "advanced".toList
  else if c = "dep".toList then some "advanced".toList
  else if c = "util".toList then some "utilities".toList
  else none

/-- The `path.split("/").filter(segment => segment.length > 0)` step of
`categorizeItem`. -/
def pathSegments (path : List Char) : List (List Char) :=
  (jsSplit '/' path).filter (fun s => decide (0 < s.length))

/-- The `for (const segment of pathSegments)` loop of `categorizeItem`: the
section of the first segment whose extracted category hits a switch case. -/
def firstSectionFromSegs : List (List Char) → Option (List Char)
| [] => none
| s :: rest =>
  match (extractCategoryFromPath s).1 with
  | some c =>
    match switchCode c with
    | some sec => some sec
    | none => firstSectionFromSegs rest
  | none => firstSectionFromSegs rest

/-- The trailing if/else chain of `categorizeItem` for individual pages and
items whose children-based checks did not fire. -/
def categorizeLeafChain (path title : List Char) : List Char :=
  if jsIncludes "package-managers".toList path || jsIncludes "version-control".toList path ||
     jsIncludes "foundation".toList path ||
     (jsIncludes "setup".toList path && !jsIncludes "environment-setup".toList path) ||
     jsIncludes "back-end".toList path || jsIncludes "vocabulary".toList path ||
     jsIncludes "abbreviations".toList path
  then "fundamentals".toList
  else if jsIncludes "mysql".toList path || jsIncludes "postgresql".toList path ||
     jsIncludes "sqlite".toList path || jsIncludes "sql".toList path ||
     jsIncludes "mysql".toList title || jsIncludes "postgresql".toList title ||
     jsIncludes "sqlite".toList title || jsIncludes "sql".toList title
  then "sql".toList
  else if jsIncludes "mongodb".toList path || jsIncludes "redis".toList path ||
     jsIncludes "nosql".toList path || jsIncludes "cassandra".toList path ||
     jsIncludes "dynamodb".toList path || jsIncludes "mongodb".toList title ||
     jsIncludes "redis".toList title || jsIncludes "nosql".toList title ||
     jsIncludes "cassandra".toList title || jsIncludes "dynamodb".toList title
  then "nosql".toList
  else if jsIncludes "docker".toList path || jsIncludes "kubernetes".toList path ||
     jsIncludes "advanced".toList path || jsIncludes "principles".toList path ||
     jsIncludes "quality-security-performance".toList path ||
     jsIncludes "deployment-strategies".toList path || jsIncludes "docker".toList title ||
     jsIncludes "principles".toList title || jsIncludes "advanced".toList title ||
     jsIncludes "security".toList title || jsIncludes "kubernetes".toList title ||
     jsIncludes "deployment".toList title
  then "advanced".toList
  else if jsIncludes "seo-accessibility".toList path ||
     jsIncludes "introduction-to-html".toList path ||
     jsIncludes "environment-setup".toList path ||
     jsIncludes "introduction-to-javascript".toList path ||
     jsIncludes "document-object-model".toList path || jsIncludes "forms".toList path ||
     jsIncludes "jquery".toList path ||
     jsIncludes "documentation-and-learning-platforms".toList path ||
     jsIncludes "html".toList title || jsIncludes "css".toList title ||
     jsIncludes "javascript".toList title || jsIncludes "seo".toList title ||
     jsIncludes "environment".toList title || jsIncludes "dom".toList title ||
     jsIncludes "forms".toList title || jsIncludes "jquery".toList title ||
     jsIncludes "documentation".toList title || jsIncludes "learning platforms".toList title
  then "databases".toList
  else if jsIncludes "utilities-tools".toList path ||
     jsIncludes "resources-utilities".toList path ||
     jsIncludes "helper-functions".toList path ||
     jsIncludes "development-tools".toList path ||
     jsIncludes "utility-libraries".toList path || jsIncludes "utilities".toList title ||
     jsIncludes "utility".toList title || jsIncludes "helper".toList title ||
     jsIncludes "tools".toList title || jsIncludes "platforms".toList title
  then "utilities".toList
  else "fundamentals".toList

/-- `categorizeItem` from `navigation.ts`: category-code segments first, then
the children-only keyword batteries, then the leaf chain. -/
def categorizeItem (item : NavigationItem) : List Char :=
  let path := lowerStr item.href
  let title := lowerStr item.title
  match firstSectionFromSegs (pathSegments path) with
  | some sec => sec
  | none =>
    if (match item.children with | some (_ :: _) => true | _ => false) then
      if jsIncludes "docker".toList path || jsIncludes "kubernetes".toList path ||
         jsIncludes "deployment-strategies".toList path ||
         jsIncludes "docker".toList title || jsIncludes "kubernetes".toList title ||
         jsIncludes "deployment".toList title
      then "advanced".toList
      else if jsIncludes "mysql".toList path || jsIncludes "postgresql".toList path ||
         jsIncludes "sqlite".toList path || jsIncludes "sql".toList path ||
         jsIncludes "mysql".toList title || jsIncludes "postgresql".toList title ||
         jsIncludes "sqlite".toList title || jsIncludes "sql".toList title
      then "sql".toList
      else if jsIncludes "mongodb".toList path || jsIncludes "redis".toList path ||
         jsIncludes "nosql".toList path || jsIncludes "cassandra".toList path ||
         jsIncludes "dynamodb".toList path || jsIncludes "mongodb".toList title ||
         jsIncludes "redis".toList title || jsIncludes "nosql".toList title ||
         jsIncludes "cassandra".toList title || jsIncludes "dynamodb".toList title
      then "nosql".toList
      else if jsIncludes "database".toList path || jsIncludes "environment-setup".toList path ||
         jsIncludes "managers".toList path || jsIncludes "version".toList path ||
         jsIncludes "transaction-models".toList path || jsIncludes "data".toList path ||
         jsIncludes "graphql".toList path || jsIncludes "database".toList title ||
         jsIncludes "databases".toList title || jsIncludes "managers".toList title ||
         jsIncludes "environment".toList title || jsIncludes "version".toList title ||
         jsIncludes "transaction".toList title || jsIncludes "data".toList title ||
         jsIncludes "graphql".toList title
      then "databases".toList
      else categorizeLeafChain path title
    else categorizeLeafChain path title

/-- The fixed section list of `categorizeNavigationItems`: display title paired
with the bucket key, in emission order. -/
def sectionSpecs : List (List Char × List Char) :=
  [("Fundamentals", "fundamentals"), ("SQL", "sql"), ("NoSQL", "nosql"),
   ("Databases", "databases"), ("Projects", "projects"),
   ("Utilities & Tools", "utilities"), ("Advanced Topics", "advanced")].map
    (fun p => (p.1.toList, p.2.toList))

/-- `categorizeNavigationItems` from `navigation.ts`: push each item into the
bucket named by `categorizeItem` (in input order), then emit the non-empty
buckets in the fixed section order. -/
def categorizeNavigationItems (items : List NavigationItem) : List NavigationSection :=
  sectionSpecs.filterMap (fun p =>
    let bucket := items.filter (fun i => categorizeItem i == p.2)
    if bucket.isEmpty then none else some ⟨p.1, bucket⟩)

mutual

/-- `isPathInSubtree` from `navigation.ts`: exact href match, segment-aligned
path-prefix match, or a match anywhere among the children. -/
def isPathInSubtree (currentPath : List Char) : NavigationItem → Bool
| .mk _ h ch _ _ =>
  (currentPath == h) || ((h ++ ['/']).isPrefixOf currentPath) ||
    (match ch with
     | none => false
     | some cs => anySubtree currentPath cs)

/-- The `item.children.some(child => isPathInSubtree(currentPath, child))`
step. -/
def anySubtree (currentPath : List Char) : List NavigationItem → Bool
| [] => false
| c :: cs => isPathInSubtree currentPath c || anySubtree currentPath cs

end

mutual

/-- `setItemExpandedState` from `navigation.ts`: copy the node, set
`isExpanded` from `isPathInSubtree`, recurse into children. -/
def setItemExpandedState : NavigationItem → List Char → NavigationItem
| .mk t h ch o e, currentPath =>
  NavigationItem.mk t h
    (match ch with
     | none => none
     | some cs => some (setChildrenExpandedState cs currentPath))
    o (some (isPathInSubtree currentPath (.mk t h ch o e)))

/-- The `children?.map(child => setItemExpandedState(child, currentPath))`
step. -/
def setChildrenExpandedState : List NavigationItem → List Char → List NavigationItem
| [], _ => []
| c :: cs, currentPath =>
  setItemExpandedState c currentPath :: setChildrenExpandedState cs currentPath

end

/-- The path normalization at the top of `setExpandedState`. -/
def normalizePath (currentPath : List Char) : List Char :=
  if ['/'].isPrefixOf currentPath then currentPath else '/' :: currentPath

/-- `setExpandedState` from `navigation.ts`. -/
def setExpandedState (sections : List NavigationSection) (currentPath : List Char) :
    List NavigationSection :=
  sections.map (fun s =>
    ⟨s.title, s.items.map (fun i => setItemExpandedState i (normalizePath currentPath))⟩)

/-- Abstract file-system node for the scan model: a file carries the metadata
`readMDXMetadata` would produce for it; a directory is either listable (with
named entries, in `readdirSync` order) or broken (its listing throws). -/
inductive FSNode : Type where
| file (meta : MDXMetadata) : FSNode
| dirOk (entries : List (List Char × FSNode)) : FSNode
| dirBroken : FSNode

/-- Model of `fs.existsSync(path.join(dirPath, name))` for a child of the
given node: a broken directory exposes none of its entries. -/
def existsEntry (d : FSNode) (name : List Char) : Bool :=
  match d with
  | .dirOk es => es.any (fun e => e.1 == name)
  | _ => false

/-- Entry lookup inside a listable directory. -/
def lookupEntry (d : FSNode) (name : List Char) : Option FSNode :=
  match d with
  | .dirOk es => (es.find? (fun e => e.1 == name)).map Prod.snd
  | _ => none

/-- The `pageFiles` list of `scanDirectory`, in checking order. -/
def pageFiles : List (List Char) :=
  ["page.tsx", "page.mdx", "page.js"].map String.toList

/-- Metadata that `readMDXMetadata` yields for a looked-up page entry: the
file's metadata, or the empty record when the path is missing or not a
readable file (its try/catch eats the error). -/
def metaOfLookup : Option FSNode → MDXMetadata
| some (.file m) => m
| _ => ⟨none, none⟩

/-- The `metadata.title || toSmartTitleCase(entry.name)` fallback, including
the JS falsiness of the empty string. -/
def jsOrElse (t : Option (List Char)) (fallback : List Char) : List Char :=
  match t with
  | some s => if s.isEmpty then fallback else s
  | none => fallback

/-- The skip filter at the top of the `scanDirectory` loop. -/
def skipName (name : List Char) : Bool :=
  ['.'].isPrefixOf name || name == "globals.css".toList ||
    name == "favicon.ico".toList || name == "layout.tsx".toList

mutual

/-- `scanDirectory` from `navigation.ts`, over the abstract file system: walk
the listing, build items, and sort them; a file path or a broken directory
yields `[]` (its `readdirSync` throws into the catch handler). -/
def scanDirectory : FSNode → List Char → List NavigationItem
| .file _, _ => []
| .dirBroken, _ => []
| .dirOk es, basePath => sortNavigationItems (scanEntries es basePath)
termination_by n _ => (sizeOf n, 0)

/-- The entry loop of `scanDirectory`, collecting items in listing order. -/
def scanEntries : List (List Char × FSNode) → List Char → List NavigationItem
| [], _ => []
| (name, node) :: rest, basePath =>
  (if skipName name then [] else entryItems name node basePath) ++ scanEntries rest basePath
termination_by es _ => (sizeOf es, 2)

/-- Items contributed by a single directory entry: none for plain files; for a
sub-directory, a navigable node when it has a page file, a grouping node when
it merely has children, nothing otherwise. -/
def entryItems (name : List Char) (node : FSNode) (basePath : List Char) :
    List NavigationItem :=
  match node with
  | .file _ => []
  | node =>
    let routePath := basePath ++ '/' :: name
    match pageFiles.find? (fun f => existsEntry node f) with
    | some pf =>
      let meta := metaOfLookup (lookupEntry node pf)
      let children := scanDirectory node routePath
      [NavigationItem.mk (jsOrElse meta.title (toSmartTitleCase name))
        (if routePath = "/page".toList then "/".toList else routePath)
        (if children.length > 0 then some (sortNavigationItems children) else none)
        meta.order none]
    | none =>
      let children := scanDirectory node routePath
      if children.length > 0 then
        [NavigationItem.mk (toSmartTitleCase name) routePath
          (some (sortNavigationItems children)) none none]
      else []
termination_by (sizeOf node, 1)

end

/-- C4: `extractCategoryFromPath` returns a category exactly when splitting on
`-` yields more than one token with a recognized (case-insensitive) first
token; the category is that lowered first token, the clean name is the
remaining tokens rejoined with `-` (never containing the leading token), and
otherwise the category is null and the clean name is the input unchanged. As a
total Lean function the embedding is side-effect-free by construction. -/
theorem extractCategoryFromPath_spec (s : List Char) :
    ((extractCategoryFromPath s).1.isSome = true ↔
      1 < (jsSplit '-' s).length ∧ lowerStr (jsSplit '-' s).headI ∈ CATEGORY_PREFIXES)
    ∧ (∀ c, (extractCategoryFromPath s).1 = some c →
        c = lowerStr (jsSplit '-' s).headI ∧
        (extractCategoryFromPath s).2 = jsJoin ['-'] (jsSplit '-' s).tail)
    ∧ ((extractCategoryFromPath s).1 = none → (extractCategoryFromPath s).2 = s) := by
  unfold extractCategoryFromPath
  by_cases h1 : 1 < (jsSplit '-' s).length
  · by_cases h2 : lowerStr (jsSplit '-' s).headI ∈ CATEGORY_PREFIXES
    · simp [h1, h2]
    · simp [h1, h2]
  · simp [h1]

/-- Witness for C4 at the segment `db-foo-bar`. -/
theorem extractCategoryFromPath_spec_witness :
    "db".toList = lowerStr (jsSplit '-' "db-foo-bar".toList).headI ∧
      (extractCategoryFromPath "db-foo-bar".toList).2 =
        jsJoin ['-'] (jsSplit '-' "db-foo-bar".toList).tail :=
  (extractCategoryFromPath_spec "db-foo-bar".toList).2.1 "db".toList (by decide)

theorem mapIdx_congr_mem {α β : Type} (f g : Nat → α → β) (l : List α)
    (h : ∀ i a, a ∈ l → f i a = g i a) : l.mapIdx f = l.mapIdx g := by
  induction l generalizing f g with
  | nil => simp
  | cons a as ih =>
    simp only [List.mapIdx_cons]
    rw [h 0 a (List.mem_cons_self a as),
      ih _ _ (fun i x hx => h (i + 1) x (List.mem_cons_of_mem a hx))]

theorem forall_mem_mapIdx {α β : Type} (P : β → Prop) (f : Nat → α → β) (l : List α)
    (h : ∀ i a, a ∈ l → P (f i a)) : ∀ b ∈ l.mapIdx f, P b := by
  induction l generalizing f with
  | nil => simp
  | cons a as ih =>
    intro b hb
    simp only [List.mapIdx_cons, List.mem_cons] at hb
    rcases hb with hb | hb
    · exact hb ▸ h 0 a (List.mem_cons_self a as)
    · exact ih _ (fun i x hx => h (i + 1) x (List.mem_cons_of_mem a hx)) b hb

theorem capWord_eq_slim (n i : Nat) (w : List Char) (h : '-' ∉ w) :
    capWord n i w = capWordSlim n i w := by
  unfold capWord capWordSlim
  by_cases h0 : i = 0
  · simp [h0]
  · by_cases hl : i = n - 1
    · simp [h0, hl]
    · simp [h0, hl, h]

/-- C10: the hyphen handling branch of `toSmartTitleCase` is dead code: every
token obtained by splitting the clean name on `-` is hyphen-free, and the
function is extensionally equal to its variant with that branch removed. -/
theorem toSmartTitleCase_deadBranch (s : List Char) :
    toSmartTitleCase s = toSmartTitleCaseSlim s ∧
      (jsSplit '-' (extractCategoryFromPath s).2).all (fun w => !w.contains '-') = true := by
  constructor
  · unfold toSmartTitleCase toSmartTitleCaseSlim
    by_cases hu : ("use".toList.isPrefixOf (extractCategoryFromPath s).2 &&
        !"user".toList.isPrefixOf (extractCategoryFromPath s).2) = true
    · simp only [hu, if_true, ite_true]
    · by_cases hj : (extractCategoryFromPath s).2 = "jQuery".toList
      · simp only [hu, hj, if_false, if_true, ite_true, ite_false]
      · simp only [hu, hj, if_false, ite_false]
        exact congrArg (jsJoin [' '])
          (mapIdx_congr_mem _ _ _ (fun i w hw =>
            capWord_eq_slim _ i w (not_mem_of_mem_jsSplit '-' _ w hw)))
  · rw [List.all_eq_true]
    intro w hw
    have := not_mem_of_mem_jsSplit '-' (extractCategoryFromPath s).2 w hw
    simp [this]

theorem char_ofNat_toNat_upper (m : Nat) (h1 : 65 ≤ m) (h2 : m ≤ 90) :
    (Char.ofNat m).toNat = m := by
  interval_cases m <;> decide

theorem toUpper_eq (c : Char) :
    c.toUpper = if c.toNat ≥ 97 ∧ c.toNat ≤ 122 then Char.ofNat (c.toNat - 32) else c := rfl

theorem toUpper_toUpper (c : Char) : c.toUpper.toUpper = c.toUpper := by
  rw [toUpper_eq c]
  by_cases h : c.toNat ≥ 97 ∧ c.toNat ≤ 122
  · rw [if_pos h, toUpper_eq]
    have hv : (Char.ofNat (c.toNat - 32)).toNat = c.toNat - 32 :=
      char_ofNat_toNat_upper _ (by omega) (by omega)
    have hcond : ¬((Char.ofNat (c.toNat - 32)).toNat ≥ 97 ∧
        (Char.ofNat (c.toNat - 32)).toNat ≤ 122) := by
      rw [hv]; omega
    rw [if_neg hcond]
  · rw [if_neg h, toUpper_eq, if_neg h]

theorem toUpper_ne_hyphen (c : Char) (h : c ≠ '-') : c.toUpper ≠ '-' := by
  intro he
  rw [toUpper_eq] at he
  by_cases h2 : c.toNat ≥ 97 ∧ c.toNat ≤ 122
  · rw [if_pos h2] at he
    have hn := congrArg Char.toNat he
    rw [char_ofNat_toNat_upper _ (by omega) (by omega)] at hn
    have : ('-').toNat = 45 := by decide
    omega
  · rw [if_neg h2] at he
    exact h he

theorem not_hyphen_upperFirst (w : List Char) (h : '-' ∉ w) : '-' ∉ upperFirst w := by
  cases w with
  | nil => simp [upperFirst]
  | cons c r =>
    simp only [List.mem_cons, not_or] at h
    simp only [upperFirst, List.mem_cons, not_or]
    exact ⟨fun hc => toUpper_ne_hyphen c (fun hcc => h.1 hcc.symm) hc.symm, h.2⟩

theorem not_hyphen_capWord (n i : Nat) (w : List Char) (h : '-' ∉ w) :
    '-' ∉ capWord n i w := by
  unfold capWord
  by_cases h0 : i = 0
  · rw [if_pos h0]; exact not_hyphen_upperFirst w h
  · rw [if_neg h0]
    by_cases hl : i = n - 1
    · rw [if_pos hl]; exact not_hyphen_upperFirst w h
    · rw [if_neg hl, if_neg h]
      by_cases hm : w ∈ minorWords
      · rw [if_pos hm]; exact h
      · rw [if_neg hm]; exact not_hyphen_upperFirst w h

theorem not_hyphen_jsJoin (ws : List (List Char)) (h : ∀ w ∈ ws, '-' ∉ w) :
    '-' ∉ jsJoin [' '] ws := by
  induction ws with
  | nil => simp [jsJoin]
  | cons a rest ih =>
    cases rest with
    | nil => simpa [jsJoin] using h a (List.mem_cons_self a [])
    | cons b rest2 =>
      have hrest := ih (fun w hw => h w (List.mem_cons_of_mem a hw))
      have ha := h a (List.mem_cons_self a _)
      show '-' ∉ a ++ [' '] ++ jsJoin [' '] (b :: rest2)
      intro hmem
      rcases List.mem_append.mp hmem with h1 | h1
      · rcases List.mem_append.mp h1 with h2 | h2
        · exact ha h2
        · simp at h2
      · exact hrest h1

theorem extract_no_hyphen (y : List Char) (h : '-' ∉ y) :
    extractCategoryFromPath y = (none, y) := by
  unfold extractCategoryFromPath
  rw [jsSplit_of_not_mem '-' y h]
  simp

theorem capWord_zero (n : Nat) (w : List Char) : capWord n 0 w = upperFirst w := by
  unfold capWord
  simp

theorem toSmartTitleCase_fix (y : List Char) (hy : '-' ∉ y)
    (hfix : upperFirst y = y ∨ y = "jQuery".toList) : toSmartTitleCase y = y := by
  unfold toSmartTitleCase
  simp only [extract_no_hyphen y hy]
  split_ifs with hu hj
  · rfl
  · exact hj.symm
  · have hfix' : upperFirst y = y := hfix.resolve_right hj
    rw [jsSplit_of_not_mem '-' y hy]
    simp only [List.mapIdx_cons, List.mapIdx_nil, capWord_zero]
    rw [hfix']
    rfl

theorem upperFirst_jsJoin_fix (c0 : List Char) (rest : List (List Char)) :
    upperFirst (jsJoin [' '] (upperFirst c0 :: rest)) = jsJoin [' '] (upperFirst c0 :: rest) := by
  cases c0 with
  | nil =>
    cases rest with
    | nil => rfl
    | cons b bs =>
      show upperFirst (' ' :: jsJoin [' '] (b :: bs)) = ' ' :: jsJoin [' '] (b :: bs)
      simp [upperFirst]
  | cons c r =>
    cases rest with
    | nil =>
      show upperFirst (Char.toUpper c :: r) = Char.toUpper c :: r
      simp [upperFirst, toUpper_toUpper]
    | cons b bs =>
      show upperFirst (Char.toUpper c :: (r ++ [' '] ++ jsJoin [' '] (b :: bs))) =
        Char.toUpper c :: (r ++ [' '] ++ jsJoin [' '] (b :: bs))
      simp [upperFirst, toUpper_toUpper]

/-- C5: `toSmartTitleCase` is idempotent on every input whose clean name does
not trigger the "use"-prefix exception: a second application returns the first
application's output unchanged. -/
theorem toSmartTitleCase_idem (s : List Char)
    (h : ¬(("use".toList.isPrefixOf (extractCategoryFromPath s).2 &&
        !"user".toList.isPrefixOf (extractCategoryFromPath s).2) = true)) :
    toSmartTitleCase (toSmartTitleCase s) = toSmartTitleCase s := by
  by_cases hj : (extractCategoryFromPath s).2 = "jQuery".toList
  · have hs : toSmartTitleCase s = "jQuery".toList := by
      unfold toSmartTitleCase
      dsimp only
      split_ifs
      rfl
    rw [hs]
    exact toSmartTitleCase_fix _ (by decide) (Or.inr rfl)
  · have hs : toSmartTitleCase s =
        jsJoin [' '] ((jsSplit '-' (extractCategoryFromPath s).2).mapIdx
          (fun i w => capWord (jsSplit '-' (extractCategoryFromPath s).2).length i w)) := by
      unfold toSmartTitleCase
      dsimp only
      split_ifs
      rfl
    have hnm := not_mem_of_mem_jsSplit '-' (extractCategoryFromPath s).2
    have hym : ∀ b ∈ (jsSplit '-' (extractCategoryFromPath s).2).mapIdx
        (fun i w => capWord (jsSplit '-' (extractCategoryFromPath s).2).length i w),
        '-' ∉ b :=
      forall_mem_mapIdx _ _ _ (fun i a ha => not_hyphen_capWord _ i a (hnm a ha))
    have hy : '-' ∉ toSmartTitleCase s := by
      rw [hs]; exact not_hyphen_jsJoin _ hym
    have hfix : upperFirst (toSmartTitleCase s) = toSmartTitleCase s := by
      rw [hs]
      obtain ⟨c0, cs, hc0⟩ :=
        List.exists_cons_of_ne_nil (jsSplit_ne_nil '-' (extractCategoryFromPath s).2)
      rw [hc0]
      simp only [List.mapIdx_cons, capWord_zero]
      exact upperFirst_jsJoin_fix c0 _
    exact toSmartTitleCase_fix _ hy (Or.inl hfix)

/-- Witness for C5 at the segment `db-getting-started`. -/
theorem toSmartTitleCase_idem_witness :
    ¬(("use".toList.isPrefixOf (extractCategoryFromPath "db-getting-started".toList).2 &&
        !"user".toList.isPrefixOf (extractCategoryFromPath "db-getting-started".toList).2) = true)
    ∧ toSmartTitleCase (toSmartTitleCase "db-getting-started".toList) =
        toSmartTitleCase "db-getting-started".toList :=
  ⟨by decide, toSmartTitleCase_idem "db-getting-started".toList (by decide)⟩

/-- C1 (evaluation at the failing input): for two siblings in the default
priority bucket (`getPriority` = 99) the comparator takes the
`priorityA !== 999 || priorityB !== 999` branch and returns `99 - 99 = 0`, so
the stable sort keeps the original order: neither the title comparison
(`["b"], ["a"]` stays unswapped) nor explicit `order` metadata (`"a"` with
`order = 1` gains no precedence over order-less `"b"`) is ever consulted; the
order/title tie-breaks run only when both priorities are exactly 999. -/
theorem sortNavigationItems_defaultBucket_eval :
    sortNavigationItems
        [NavigationItem.mk "b".toList [] none none none,
         NavigationItem.mk "a".toList [] none none none] =
      [NavigationItem.mk "b".toList [] none none none,
       NavigationItem.mk "a".toList [] none none none]
    ∧ sortNavigationItems
        [NavigationItem.mk "b".toList [] none none none,
         NavigationItem.mk "a".toList [] none (some 1) none] =
      [NavigationItem.mk "b".toList [] none none none,
       NavigationItem.mk "a".toList [] none (some 1) none]
    ∧ getPriority "a".toList = 99 ∧ getPriority "b".toList = 99
    ∧ strCmp "a".toList "b".toList ≤ 0
    ∧ cmpItems (NavigationItem.mk "b".toList [] none none none)
        (NavigationItem.mk "a".toList [] none none none) = 0 :=
  ⟨rfl, rfl, by decide, by decide, by decide, by decide⟩

theorem jsIncludes_iff_substring (pat s : List Char) :
    jsIncludes pat s = true ↔ pat <:+: s := by
  induction s with
  | nil =>
    simp [jsIncludes, List.isPrefixOf_iff_prefix]
  | cons c rest ih =>
    simp only [jsIncludes, Bool.or_eq_true, List.isPrefixOf_iff_prefix, ih,
      List.infix_cons_iff]

theorem getPriority_of_vocab (t : List Char)
    (h : jsIncludes "vocabulary".toList t = true) : getPriority t = 1 := by
  have h1 : jsIncludes "vocabulary".toList (lowerStr t) = true := by
    rw [jsIncludes_iff_substring] at h ⊢
    have hm := List.IsInfix.map Char.toLower h
    rw [show List.map Char.toLower "vocabulary".toList = "vocabulary".toList from by decide]
      at hm
    exact hm
  have hc : (jsIncludes "abbreviations".toList (lowerStr t) ||
      jsIncludes "vocabulary".toList (lowerStr t) ||
      jsIncludes "acronyms".toList (lowerStr t)) = true := by
    rw [h1]
    simp
  unfold getPriority
  dsimp only
  rw [if_pos hc]

/-- C6 counterexample: the title "bonus intro" contains "bonus", yet it
matches the higher-priority keyword "intro" (bucket 4), so the sorter places
it BEFORE the default-bucket title "a" — refuting, as stated, that every
default-bucket item precedes every item whose title contains "bonus". -/
theorem sortNavigationItems_bonus_counterexample :
    jsIncludes "bonus".toList "bonus intro".toList = true
    ∧ getPriority "a".toList = 99
    ∧ sortNavigationItems
        [NavigationItem.mk "a".toList [] none none none,
         NavigationItem.mk "bonus intro".toList [] none none none] =
      [NavigationItem.mk "bonus intro".toList [] none none none,
       NavigationItem.mk "a".toList [] none none none] :=
  ⟨by decide, by decide, rfl⟩

/-- C6 (amended): `sortNavigationItems` is total (a Lean function) and
idempotent, every item whose title contains "vocabulary" precedes every
default-bucket item (`getPriority` = 99), and every default-bucket item
precedes every item whose title contains "bonus" AND lands in the bonus
bucket (`getPriority` = 9999, i.e. no higher-priority keyword also matches:
the original claim fails when one does). -/
theorem sortNavigationItems_props (l : List NavigationItem) :
    sortNavigationItems (sortNavigationItems l) = sortNavigationItems l
    ∧ (∀ i j : Fin (sortNavigationItems l).length,
        jsIncludes "vocabulary".toList ((sortNavigationItems l).get i).title = true →
        getPriority ((sortNavigationItems l).get j).title = 99 →
        (i : Nat) < (j : Nat))
    ∧ (∀ i j : Fin (sortNavigationItems l).length,
        getPriority ((sortNavigationItems l).get i).title = 99 →
        jsIncludes "bonus".toList ((sortNavigationItems l).get j).title = true →
        getPriority ((sortNavigationItems l).get j).title = 9999 →
        (i : Nat) < (j : Nat)) := by
  have hsorted : List.Sorted jsLe (sortNavigationItems l) :=
    List.sorted_insertionSort jsLe l
  refine ⟨hsorted.insertionSort_eq, ?_, ?_⟩
  · intro i j hv hd
    have hp1 : getPriority ((sortNavigationItems l).get i).title = 1 :=
      getPriority_of_vocab _ hv
    rcases Nat.lt_trichotomy (i : Nat) (j : Nat) with h | h | h
    · exact h
    · exfalso
      have hij : i = j := Fin.ext h
      rw [hij, hd] at hp1
      norm_num at hp1
    · exfalso
      have hr := hsorted.rel_get_of_lt (show j < i from h)
      unfold jsLe cmpItems at hr
      rw [hd, hp1] at hr
      norm_num at hr
  · intro i j hd hb hp
    rcases Nat.lt_trichotomy (i : Nat) (j : Nat) with h | h | h
    · exact h
    · exfalso
      have hij : i = j := Fin.ext h
      rw [hij, hp] at hd
      norm_num at hd
    · exfalso
      have hr := hsorted.rel_get_of_lt (show j < i from h)
      unfold jsLe cmpItems at hr
      rw [hd, hp] at hr
      norm_num at hr

/-- The concrete sibling list used to witness C6. -/
def sortPropsList : List NavigationItem :=
  [NavigationItem.mk "bonus stuff".toList [] none none none,
   NavigationItem.mk "a".toList [] none none none,
   NavigationItem.mk "vocabulary list".toList [] none none none]

/-- Witness for C6 on a three-element list covering both bucket statements. -/
theorem sortNavigationItems_props_witness :
    jsIncludes "vocabulary".toList
        ((sortNavigationItems sortPropsList).get ⟨0, by decide⟩).title = true
    ∧ getPriority ((sortNavigationItems sortPropsList).get ⟨1, by decide⟩).title = 99
    ∧ jsIncludes "bonus".toList
        ((sortNavigationItems sortPropsList).get ⟨2, by decide⟩).title = true
    ∧ getPriority ((sortNavigationItems sortPropsList).get ⟨2, by decide⟩).title = 9999
    ∧ (0 : Nat) < 1 ∧ (1 : Nat) < 2 :=
  ⟨by decide, by decide, by decide, by decide,
    (sortNavigationItems_props sortPropsList).2.1 ⟨0, by decide⟩ ⟨1, by decide⟩
      (by decide) (by decide),
    (sortNavigationItems_props sortPropsList).2.2 ⟨1, by decide⟩ ⟨2, by decide⟩
      (by decide) (by decide) (by decide)⟩

/-- C2 counterexample: the href `/sql-a/db-foo` contains the segment `db-foo`,
whose category code `db` maps to section "databases", yet `categorizeItem`
returns "sql" — the loop stops at the FIRST category-carrying segment
(`sql-a`), so a later code-carrying segment does not force its own section. -/
theorem categorizeItem_segment_counterexample :
    "db-foo".toList ∈ pathSegments (lowerStr "/sql-a/db-foo".toList)
    ∧ (extractCategoryFromPath "db-foo".toList).1 = some "db".toList
    ∧ switchCode "db".toList = some "databases".toList
    ∧ categorizeItem (NavigationItem.mk "x".toList "/sql-a/db-foo".toList none none none) =
        "sql".toList
    ∧ "sql".toList ≠ "databases".toList :=
  ⟨by decide, by decide, rfl, rfl, by decide⟩

/-- C2 (amended): whenever the segment loop finds a category code — i.e. the
FIRST code-carrying segment of the href determines a section — that section is
returned, whatever the item's title, children, order or expansion state; in
particular an href whose only code-carrying segment is a `db-` segment always
lands in "databases". -/
theorem categorizeItem_categoryCode (t href : List Char) (ch : Option (List NavigationItem))
    (o : Option Int) (e : Option Bool) (sec : List Char)
    (h : firstSectionFromSegs (pathSegments (lowerStr href)) = some sec) :
    categorizeItem (NavigationItem.mk t href ch o e) = sec := by
  unfold categorizeItem
  dsimp only [NavigationItem.href, NavigationItem.title]
  rw [h]

/-- Witness for C2 (amended): `/db-foo` with a keyword-laden title and a child
still lands in "databases". -/
theorem categorizeItem_categoryCode_witness :
    firstSectionFromSegs (pathSegments (lowerStr "/db-foo".toList)) = some "databases".toList
    ∧ categorizeItem (NavigationItem.mk "mysql bonus".toList "/db-foo".toList
        (some [NavigationItem.mk "c".toList "/db-foo/c".toList none none none]) none none) =
      "databases".toList :=
  ⟨rfl, categorizeItem_categoryCode "mysql bonus".toList "/db-foo".toList
    (some [NavigationItem.mk "c".toList "/db-foo/c".toList none none none]) none none
    "databases".toList rfl⟩

/-- The self-match part of the expansion test: exact href match or
segment-aligned prefix match of the current location. -/
def selfMatch (p : List Char) (i : NavigationItem) : Bool :=
  (p == i.href) || ((i.href ++ ['/']).isPrefixOf p)

mutual

/-- All strict descendants of a node, in traversal order. -/
def descendants : NavigationItem → List NavigationItem
| .mk _ _ none _ _ => []
| .mk _ _ (some cs) _ _ => descendantsList cs

/-- All members of a forest together with their strict descendants. -/
def descendantsList : List NavigationItem → List NavigationItem
| [] => []
| c :: cs => c :: (descendants c ++ descendantsList cs)

end

mutual

theorem isPathInSubtree_eq_descendants (p : List Char) :
    ∀ i, isPathInSubtree p i = (selfMatch p i || (descendants i).any (selfMatch p))
| .mk t h none o e => by
  simp [isPathInSubtree, selfMatch, descendants, NavigationItem.href, Bool.or_assoc]
| .mk t h (some cs) o e => by
  have hc := anySubtree_eq_descendants p cs
  simp [isPathInSubtree, selfMatch, descendants, NavigationItem.href, hc, Bool.or_assoc]

theorem anySubtree_eq_descendants (p : List Char) :
    ∀ l, anySubtree p l = (descendantsList l).any (selfMatch p)
| [] => by simp [anySubtree, descendantsList]
| c :: cs => by
  have h1 := isPathInSubtree_eq_descendants p c
  have h2 := anySubtree_eq_descendants p cs
  simp [anySubtree, descendantsList, h1, h2, List.any_append, Bool.or_assoc]

end

mutual

theorem isPathInSubtree_setItem (p q : List Char) :
    ∀ i, isPathInSubtree p (setItemExpandedState i q) = isPathInSubtree p i
| .mk t h none o e => by
  simp [isPathInSubtree, setItemExpandedState]
| .mk t h (some cs) o e => by
  have hc := anySubtree_setChildren p q cs
  simp [isPathInSubtree, setItemExpandedState, hc]

theorem anySubtree_setChildren (p q : List Char) :
    ∀ l, anySubtree p (setChildrenExpandedState l q) = anySubtree p l
| [] => by simp [anySubtree, setChildrenExpandedState]
| c :: cs => by
  have h1 := isPathInSubtree_setItem p q c
  have h2 := anySubtree_setChildren p q cs
  simp [anySubtree, setChildrenExpandedState, h1, h2]

end

mutual

/-- Every node of the tree carries `isExpanded = some b` where `b` is exactly
its own `isPathInSubtree` verdict. -/
def markedOk (p : List Char) : NavigationItem → Bool
| .mk t h ch o e =>
  (e == some (isPathInSubtree p (.mk t h ch o e))) &&
    (match ch with
     | none => true
     | some cs => markedOkList p cs)

/-- `markedOk` over a forest. -/
def markedOkList (p : List Char) : List NavigationItem → Bool
| [] => true
| c :: cs => markedOk p c && markedOkList p cs

end

mutual

theorem markedOk_setItem (p : List Char) :
    ∀ i, markedOk p (setItemExpandedState i p) = true
| .mk t h none o e => by
  simp [markedOk, setItemExpandedState, isPathInSubtree]
| .mk t h (some cs) o e => by
  have hc := markedOkList_setChildren p cs
  have hinv := anySubtree_setChildren p p cs
  simp [markedOk, setItemExpandedState, isPathInSubtree, hc, hinv]

theorem markedOkList_setChildren (p : List Char) :
    ∀ l, markedOkList p (setChildrenExpandedState l p) = true
| [] => by simp [markedOkList, setChildrenExpandedState]
| c :: cs => by
  have h1 := markedOk_setItem p c
  have h2 := markedOkList_setChildren p cs
  simp [markedOkList, setChildrenExpandedState, h1, h2]

end

/-- C7: (a) the expansion test of a node holds exactly when the node itself
matches the current location (equal href, or href followed by `/` a prefix of
it) or some strict descendant does; (b) `setExpandedState` marks every node of
every section with precisely that verdict (against the normalized location)
and all other nodes not expanded; (c) at current location `/a/b`, a node with
href `/a` is marked expanded while leaves `/a/b/c` and `/ab` are not. -/
theorem setExpandedState_spec :
    (∀ p i, isPathInSubtree p i = (selfMatch p i || (descendants i).any (selfMatch p)))
    ∧ (∀ sections p s, s ∈ setExpandedState sections p →
        ∀ i ∈ s.items, markedOk (normalizePath p) i = true)
    ∧ setExpandedState [⟨"S".toList,
        [NavigationItem.mk "A".toList "/a".toList none none none,
         NavigationItem.mk "C".toList "/a/b/c".toList none none none,
         NavigationItem.mk "AB".toList "/ab".toList none none none]⟩] "/a/b".toList =
      [⟨"S".toList,
        [NavigationItem.mk "A".toList "/a".toList none none (some true),
         NavigationItem.mk "C".toList "/a/b/c".toList none none (some false),
         NavigationItem.mk "AB".toList "/ab".toList none none (some false)]⟩] := by
  refine ⟨isPathInSubtree_eq_descendants, ?_, rfl⟩
  intro sections p s hs i hi
  unfold setExpandedState at hs
  rcases List.mem_map.mp hs with ⟨s0, _, rfl⟩
  rcases List.mem_map.mp hi with ⟨i0, _, rfl⟩
  exact markedOk_setItem (normalizePath p) i0

/-- Witness for C7 at a one-section, one-item navigation and location `/a/b`. -/
theorem setExpandedState_spec_witness :
    markedOk (normalizePath "/a/b".toList)
      (setItemExpandedState (NavigationItem.mk "A".toList "/a".toList none none none)
        (normalizePath "/a/b".toList)) = true :=
  setExpandedState_spec.2.1
    [⟨"S".toList, [NavigationItem.mk "A".toList "/a".toList none none none]⟩]
    "/a/b".toList
    ⟨"S".toList, [setItemExpandedState (NavigationItem.mk "A".toList "/a".toList none none none)
      (normalizePath "/a/b".toList)]⟩
    (List.mem_singleton.mpr rfl)
    (setItemExpandedState (NavigationItem.mk "A".toList "/a".toList none none none)
      (normalizePath "/a/b".toList))
    (List.mem_singleton.mpr rfl)


/-- The seven bucket keys, in emission order. -/
def sectionKeys : List (List Char) := sectionSpecs.map Prod.snd

set_option maxHeartbeats 1000000 in
theorem switchCode_mem (c sec : List Char) (h : switchCode c = some sec) :
    sec ∈ sectionKeys := by
  unfold switchCode at h
  split_ifs at h <;> cases h <;> decide

theorem firstSectionFromSegs_mem (segs : List (List Char)) (sec : List Char)
    (h : firstSectionFromSegs segs = some sec) : sec ∈ sectionKeys := by
  induction segs with
  | nil => exact Option.noConfusion h
  | cons s rest ih =>
    unfold firstSectionFromSegs at h
    cases hx : (extractCategoryFromPath s).1 with
    | none =>
      simp only [hx] at h
      exact ih h
    | some c =>
      simp only [hx] at h
      cases hw : switchCode c with
      | none =>
        simp only [hw] at h
        exact ih h
      | some sec2 =>
        simp only [hw] at h
        cases h
        exact switchCode_mem c _ hw

theorem categorizeLeafChain_mem (path title : List Char) :
    categorizeLeafChain path title ∈ sectionKeys := by
  unfold categorizeLeafChain
  split_ifs <;> decide

theorem categorizeItem_mem (i : NavigationItem) : categorizeItem i ∈ sectionKeys := by
  unfold categorizeItem
  dsimp only
  cases hfs : firstSectionFromSegs (pathSegments (lowerStr i.href)) with
  | some sec => exact firstSectionFromSegs_mem _ _ hfs
  | none =>
    split_ifs <;> first
      | decide
      | exact categorizeLeafChain_mem (lowerStr i.href) (lowerStr i.title)

theorem filters_cons_perm (keys : List (List Char)) (x : NavigationItem)
    (xs : List NavigationItem) (hnd : keys.Nodup) (hx : categorizeItem x ∈ keys) :
    ((keys.map (fun k => (x :: xs).filter (fun i => categorizeItem i == k))).flatten).Perm
      (x :: (keys.map (fun k => xs.filter (fun i => categorizeItem i == k))).flatten) := by
  induction keys with
  | nil => exact absurd hx (List.not_mem_nil _)
  | cons k ks ih =>
    rcases List.nodup_cons.mp hnd with ⟨hknot, hndks⟩
    by_cases hk : categorizeItem x = k
    · have hfc : (x :: xs).filter (fun i => categorizeItem i == k) =
          x :: xs.filter (fun i => categorizeItem i == k) := by
        simp [List.filter_cons, hk]
      have hrest : ks.map (fun k2 => (x :: xs).filter (fun i => categorizeItem i == k2)) =
          ks.map (fun k2 => xs.filter (fun i => categorizeItem i == k2)) := by
        apply List.map_congr_left
        intro k2 hk2
        have hne : categorizeItem x ≠ k2 := by
          intro he
          apply hknot
          rw [hk.symm.trans he]
          exact hk2
        simp [List.filter_cons, hne]
      rw [List.map_cons, List.map_cons, hfc, hrest, List.flatten_cons, List.flatten_cons,
        List.cons_append]
    · have hfc : (x :: xs).filter (fun i => categorizeItem i == k) =
          xs.filter (fun i => categorizeItem i == k) := by
        simp [List.filter_cons, hk]
      have hxks : categorizeItem x ∈ ks := by
        rcases List.mem_cons.mp hx with he | he
        · exact absurd he hk
        · exact he
      have hperm := ih hndks hxks
      rw [List.map_cons, List.map_cons, hfc, List.flatten_cons, List.flatten_cons]
      exact (List.Perm.append_left _ hperm).trans List.perm_middle

theorem join_filters_perm (keys : List (List Char)) (l : List NavigationItem)
    (hnd : keys.Nodup) (hmem : ∀ x ∈ l, categorizeItem x ∈ keys) :
    ((keys.map (fun k => l.filter (fun i => categorizeItem i == k))).flatten).Perm l := by
  induction l with
  | nil =>
    have hz : keys.map (fun k => ([] : List NavigationItem).filter
        (fun i => categorizeItem i == k)) = keys.map (fun _ => ([] : List NavigationItem)) := by
      simp
    rw [hz]
    simp
  | cons x xs ih =>
    have h1 := filters_cons_perm keys x xs hnd (hmem x (List.mem_cons_self x xs))
    have h2 := ih (fun y hy => hmem y (List.mem_cons_of_mem x hy))
    exact h1.trans (List.Perm.cons x h2)

theorem join_filterMap_buckets (specs : List (List Char × List Char))
    (l : List NavigationItem) :
    ((specs.filterMap (fun p =>
        let bucket := l.filter (fun i => categorizeItem i == p.2)
        if bucket.isEmpty then none else some (⟨p.1, bucket⟩ : NavigationSection))).map
      NavigationSection.items).flatten =
    (specs.map (fun p => l.filter (fun i => categorizeItem i == p.2))).flatten := by
  induction specs with
  | nil => rfl
  | cons p ps ih =>
    by_cases hb : (l.filter (fun i => categorizeItem i == p.2)).isEmpty
    · rw [List.filterMap_cons, List.map_cons]
      dsimp only
      rw [if_pos hb, ih, List.flatten_cons, List.isEmpty_iff.mp hb, List.nil_append]
    · rw [List.filterMap_cons, List.map_cons]
      dsimp only
      rw [if_neg hb, List.map_cons, List.flatten_cons, List.flatten_cons, ih]

/-- C3: `categorizeNavigationItems` partitions its input: the concatenation of
all emitted section item-lists is a permutation of the input (each item lands
in exactly one section, none dropped or duplicated), each section's item list
is a sublist of the input (within-section relative order preserved), and no
emitted section is empty. -/
theorem categorizeNavigationItems_partition (l : List NavigationItem) :
    (((categorizeNavigationItems l).map NavigationSection.items).flatten).Perm l
    ∧ (∀ s ∈ categorizeNavigationItems l, s.items.Sublist l ∧ s.items ≠ []) := by
  constructor
  · unfold categorizeNavigationItems
    rw [join_filterMap_buckets]
    have hmapmap : sectionSpecs.map (fun p => l.filter (fun i => categorizeItem i == p.2)) =
        sectionKeys.map (fun k => l.filter (fun i => categorizeItem i == k)) := by
      unfold sectionKeys
      rw [List.map_map]
      rfl
    rw [hmapmap]
    exact join_filters_perm sectionKeys l (by decide) (fun x _ => categorizeItem_mem x)
  · intro s hs
    unfold categorizeNavigationItems at hs
    rcases List.mem_filterMap.mp hs with ⟨p, _, hp⟩
    dsimp only at hp
    by_cases hb : (l.filter (fun i => categorizeItem i == p.2)).isEmpty
    · rw [if_pos hb] at hp
      exact Option.noConfusion hp
    · rw [if_neg hb] at hp
      cases hp
      refine ⟨List.filter_sublist l, fun hnil => hb ?_⟩
      have h2 : l.filter (fun i => categorizeItem i == p.2) = [] := hnil
      rw [h2]
      rfl

/-- Witness for C3 on a one-item input that lands in the "Databases"
section. -/
theorem categorizeNavigationItems_partition_witness :
    (((categorizeNavigationItems
        [NavigationItem.mk "x".toList "/db-foo".toList none none none]).map
      NavigationSection.items).flatten).Perm
        [NavigationItem.mk "x".toList "/db-foo".toList none none none]
    ∧ ([NavigationItem.mk "x".toList "/db-foo".toList none none none].Sublist
        [NavigationItem.mk "x".toList "/db-foo".toList none none none]
      ∧ [NavigationItem.mk "x".toList "/db-foo".toList none none none] ≠ []) :=
  ⟨(categorizeNavigationItems_partition
      [NavigationItem.mk "x".toList "/db-foo".toList none none none]).1,
   (categorizeNavigationItems_partition
      [NavigationItem.mk "x".toList "/db-foo".toList none none none]).2
     ⟨"Databases".toList, [NavigationItem.mk "x".toList "/db-foo".toList none none none]⟩
     (List.mem_singleton.mpr rfl)⟩

theorem entryItems_dirBroken (name basePath : List Char) :
    entryItems name .dirBroken basePath = [] := by
  simp [entryItems, existsEntry, pageFiles, scanDirectory]

theorem scanEntries_cons (name : List Char) (node : FSNode)
    (rest : List (List Char × FSNode)) (basePath : List Char) :
    scanEntries ((name, node) :: rest) basePath =
      (if skipName name then [] else entryItems name node basePath) ++
        scanEntries rest basePath := by
  simp [scanEntries]

theorem scanEntries_removeBroken (pre post : List (List Char × FSNode))
    (name : List Char) (basePath : List Char) :
    scanEntries (pre ++ (name, .dirBroken) :: post) basePath =
      scanEntries (pre ++ post) basePath := by
  induction pre with
  | nil =>
    rw [List.nil_append, List.nil_append, scanEntries_cons, entryItems_dirBroken]
    simp
  | cons e pre2 ih =>
    cases e with
    | mk n2 node2 =>
      rw [List.cons_append, List.cons_append, scanEntries_cons, scanEntries_cons, ih]

/-- C8: a subtree whose directory listing fails contributes an empty item
sequence (`scanDirectory` on a broken directory returns `[]` instead of
raising), and a broken sub-directory inside a listable directory leaves the
scan of everything else untouched: the items are exactly those produced with
the broken subtree absent from the listing. -/
theorem scanDirectory_brokenSubtree (basePath : List Char)
    (pre post : List (List Char × FSNode)) (name : List Char) :
    scanDirectory .dirBroken basePath = []
    ∧ scanDirectory (.dirOk (pre ++ (name, .dirBroken) :: post)) basePath =
        scanDirectory (.dirOk (pre ++ post)) basePath := by
  constructor
  · simp [scanDirectory]
  · rw [show scanDirectory (.dirOk (pre ++ (name, .dirBroken) :: post)) basePath =
        sortNavigationItems (scanEntries (pre ++ (name, .dirBroken) :: post) basePath) from
        by simp [scanDirectory]]
    rw [show scanDirectory (.dirOk (pre ++ post)) basePath =
        sortNavigationItems (scanEntries (pre ++ post) basePath) from by simp [scanDirectory]]
    rw [scanEntries_removeBroken]

/-- C9: `readMDXMetadata` never raises (the embedding is a total function on
the abstracted file-system outcome): it returns the empty record when running
client side, when the file is missing or unreadable, or when no front-matter
block matches; and a front-matter field whose pattern does not match is left
undefined — the result's `title`/`order` are exactly the pattern-search
results, never a defaulted value. -/
theorem readMDXMetadata_spec :
    (∀ content, readMDXMetadata true content = ⟨none, none⟩)
    ∧ readMDXMetadata false none = ⟨none, none⟩
    ∧ (∀ text, matchFrontmatter text = none →
        readMDXMetadata false (some text) = ⟨none, none⟩)
    ∧ (∀ text fm, matchFrontmatter text = some fm →
        (readMDXMetadata false (some text)).title = titleSearch fm
        ∧ (readMDXMetadata false (some text)).order = orderSearch fm)
    ∧ (∀ text fm, matchFrontmatter text = some fm → titleSearch fm = none →
        (readMDXMetadata false (some text)).title = none)
    ∧ (∀ text fm, matchFrontmatter text = some fm → orderSearch fm = none →
        (readMDXMetadata false (some text)).order = none) := by
  refine ⟨fun content => rfl, rfl, ?_, ?_, ?_, ?_⟩
  · intro text h
    unfold readMDXMetadata
    simp [h]
  · intro text fm h
    unfold readMDXMetadata
    simp [h]
  · intro text fm h ht
    unfold readMDXMetadata
    simp [h, ht]
  · intro text fm h ho
    unfold readMDXMetadata
    simp [h, ho]

/-- Witness for C9 on a file whose front matter has a well-formed `order` but
an unquoted (non-matching) `title`: the title stays undefined. -/
theorem readMDXMetadata_spec_witness :
    matchFrontmatter "---\ntitle: Custom\norder: 2\n---\nbody".toList =
      some "title: Custom\norder: 2".toList
    ∧ titleSearch "title: Custom\norder: 2".toList = none
    ∧ (readMDXMetadata false
        (some "---\ntitle: Custom\norder: 2\n---\nbody".toList)).title = none :=
  ⟨by decide, by decide,
    readMDXMetadata_spec.2.2.2.2.1 "---\ntitle: Custom\norder: 2\n---\nbody".toList
      "title: Custom\norder: 2".toList (by decide) (by decide)⟩
